import Mathlib

/-!
Verification of the twbot core (twbot.go) against its natural-language
specification. Go strings are modelled as `List Char` (Go's `len` and
byte-slicing coincide with list length and `take`/`drop` at this level);
Go maps `map[string]*twitterUser` are modelled as association lists;
remote calls and file persistence are injected as explicit parameters.
-/

set_option maxRecDepth 8192

namespace Twbot

/-- Models the prefix test underlying Go `strings.Index`/`strings.SplitN`:
`startsWith pat t` holds when `pat` is an initial segment of `t`. -/
def startsWith : List Char → List Char → Bool
  | [], _ => true
  | _ :: _, [] => false
  | p :: ps, c :: cs => p == c && startsWith ps cs

/-- Models Go `strings.SplitN(text, sep, 2)` for a separator that occurs in
`text`: returns the parts before and after the first occurrence of `sep`,
or `none` when `sep` does not occur (Go then returns the one-element slice). -/
def splitFirst (sep : List Char) : List Char → Option (List Char × List Char)
  | [] => none
  | c :: cs =>
    if startsWith sep (c :: cs) then some ([], (c :: cs).drop sep.length)
    else
      match splitFirst sep cs with
      | some (pre, post) => some (c :: pre, post)
      | none => none

/-- Models Go `strings.Contains(text, sep)` for nonempty `sep`. -/
def strContains (sep text : List Char) : Bool := (splitFirst sep text).isSome

def retweetTextTag : List Char := "RT @".toList

def retweetTextIndex : List Char := ": ".toList

def tweetTCOHTTPTag : List Char := "http://t.co".toList

def tweetTCOHTTPSTag : List Char := "https://t.co".toList

def tweetTCOTextIndex : List Char := " ".toList

def tweetTextMaxSize : Nat := 140

def tweetTruncatedTextMin : Nat := 30

/-- Embeds `stripText` (twbot.go:613-628): removes the first occurrence of
`tostripped` together with everything up to and including the next `endSep`
(or to the end of the string when no `endSep` follows), and reports whether
anything was stripped. -/
def stripText (text tostripped endSep : List Char) : List Char × Bool :=
  match splitFirst tostripped text with
  | none => (text, false)
  | some (pre, post) =>
    match splitFirst endSep post with
    | none => (pre, true)
    | some (_, after) => (pre ++ after, true)

/-- Embeds the link-stripping loop of `getOriginalText` (twbot.go:640-648):
each pass strips one `http://t.co` and one `https://t.co` token, looping
until neither tag was stripped in a pass. The `fuel` argument bounds the
number of passes; every productive pass shortens the text by at least the
tag length, so `text.length` passes always reach the fixed point. -/
def stripLinksFuel : Nat → List Char → List Char
  | 0, text => text
  | fuel + 1, text =>
    let r1 := stripText text tweetTCOHTTPTag tweetTCOTextIndex
    let r2 := stripText r1.1 tweetTCOHTTPSTag tweetTCOTextIndex
    if r1.2 || r2.2 then stripLinksFuel fuel r2.1 else r2.1

def stripLinks (text : List Char) : List Char := stripLinksFuel text.length text

/-- Embeds `getOriginalText` (twbot.go:630-650): strips the retweet
attribution wrapper and then all embedded t.co link tokens. The Go function
returns a pair (text, error); the boolean component is `true` exactly when
the Go error is non-nil, in which case the Go text result is `""`. -/
def getOriginalText (text : List Char) : List Char × Bool :=
  if strContains retweetTextTag text then
    match splitFirst retweetTextIndex text with
    | none => ([], true)
    | some (_, rest) => (stripLinks rest, false)
  else (stripLinks text, false)

/-- Embeds `truncate` (twbot.go:330-358): fits a message and a link whose
platform-side width is assumed to be `urlMaxLength` into 140 characters. -/
def truncate (msg archiveURL : List Char) (urlMaxLength : Nat) : List Char :=
  let sep : List Char := "... ".toList
  let emptySep : List Char := " ".toList
  if urlMaxLength = 0 then
    if msg.length > tweetTextMaxSize then
      msg.take (tweetTextMaxSize - sep.length) ++ sep.take (sep.length - 1)
    else msg
  else if msg.length + emptySep.length + urlMaxLength ≤ tweetTextMaxSize then
    msg ++ emptySep ++ archiveURL
  else
    let left := msg.length + sep.length + urlMaxLength - tweetTextMaxSize
    if tweetTruncatedTextMin ≤ msg.length - left then
      msg.take (msg.length - left) ++ sep ++ archiveURL
    else if urlMaxLength ≤ tweetTextMaxSize then archiveURL
    else if msg.length ≤ tweetTextMaxSize then msg
    else msg.take (tweetTextMaxSize - 1)

/-- Embeds the `twitterUser` record (twbot.go:44-47): timestamp first seen
(UnixNano) and currently-followed/following flag. -/
structure twitterUser where
  timestamp : Int
  follow : Bool
deriving DecidableEq

/-- Embeds `twitterUsers.Ids`, the Go `map[string]*twitterUser`
(twbot.go:49-52), as an association list keyed by the decimal string id. -/
abbrev UserMap := List (String × twitterUser)

/-- Embeds the first reconcile pass (twbot.go:885-887 and 921-923): every
existing record's `Follow` flag is set to `false`. -/
def markAllInactive (m : UserMap) : UserMap :=
  m.map (fun p => (p.1, { p.2 with follow := false }))

/-- Embeds the present-id branch of reconcile (twbot.go:891-893): the record
keyed by `k` gets `Follow = true`. -/
def setFollowTrue (m : UserMap) (k : String) : UserMap :=
  m.map (fun p => if p.1 = k then (p.1, { p.2 with follow := true }) else p)

/-- Embeds the body of the remote-id loop of reconcile (twbot.go:889-900):
a present id is reactivated, an absent one is inserted with
`Timestamp = now, Follow = true` (the id key is `strconv.FormatInt(id, 10)`). -/
def applyRemoteId (now : Int) (m : UserMap) (id : Int) : UserMap :=
  let strID := toString id
  if (m.lookup strID).isSome then setFollowTrue m strID
  else m ++ [(strID, ⟨now, true⟩)]

/-- Embeds the reconciliation core shared by `updateFollowers`
(twbot.go:874-908) and `updateFriends` (twbot.go:910-944): mark every loaded
record inactive, then fold the remote identifier stream over the snapshot. -/
def reconcile (m : UserMap) (now : Int) (ids : List Int) : UserMap :=
  ids.foldl (fun acc id => applyRemoteId now acc id) (markAllInactive m)

/-- Embeds the persist-then-assign tail of `updateFollowers`/`updateFriends`
(twbot.go:902-907 and 938-943): the reconciled snapshot is built from the
snapshot loaded from disk; on save failure the error is returned and the
in-memory map `inMem` is left untouched, on success the in-memory map is
replaced by the reconciled one. The boolean result is `true` exactly when
the Go function returns a non-nil error. -/
def updateUsersRun (inMem diskSnap : UserMap) (now : Int) (ids : List Int)
    (saveOk : Bool) : UserMap × Bool :=
  let users := reconcile diskSnap now ids
  if saveOk then (users, false) else (inMem, true)

/-- Result of a friend-map mutation: `ok` carries the new map returned to the
caller; `fatalStop` models Go `log.Fatalln` on a save error (twbot.go:954 and
1024), which terminates the whole process instead of returning. -/
inductive MutationResult where
  | ok (m : UserMap) : MutationResult
  | fatalStop : MutationResult
deriving DecidableEq

/-- Go map assignment `m[k] = u`: overwrite when present, insert otherwise. -/
def setUser (m : UserMap) (k : String) (u : twitterUser) : UserMap :=
  if (m.lookup k).isSome then m.map (fun p => if p.1 = k then (k, u) else p)
  else m ++ [(k, u)]

/-- Embeds `addFriend` (twbot.go:1015-1026): store the id with
`Timestamp = now, Follow = true`, then save; a failed save hits
`log.Fatalln`. -/
def addFriend (m : UserMap) (id : Int) (now : Int) (saveOk : Bool) :
    MutationResult :=
  let m2 := setUser m (toString id) ⟨now, true⟩
  if saveOk then .ok m2 else .fatalStop

/-- Embeds `unfollowFriend` (twbot.go:948-956): flag the stored record as not
followed, then save; a failed save hits `log.Fatalln`. -/
def unfollowFriend (m : UserMap) (id : Int) (saveOk : Bool) : MutationResult :=
  let m2 := m.map
    (fun p => if p.1 = toString id then (p.1, { p.2 with follow := false }) else p)
  if saveOk then .ok m2 else .fatalStop

/-- Embeds `isFollower` (twbot.go:995-1000): key-presence test on the
followers map. -/
def isFollower (followers : UserMap) (id : Int) : Bool :=
  (followers.lookup (toString id)).isSome

/-- The fields of an `anaconda.Tweet` the dedup pipeline reads: identifier,
raw text and author name. -/
structure Tweet where
  id : Int
  text : List Char
  userName : List Char
deriving DecidableEq

/-- Embeds the loop of `removeDuplicates` (twbot.go:684-700); `seen` is the
`temp` set of canonical fingerprints. On a normalization error the Go
`original` value is `""` (getOriginalText's error return), and it is still
inserted and compared like any fingerprint. -/
def removeDupAux (seen : List (List Char)) : List Tweet → List Tweet
  | [] => []
  | t :: rest =>
    let original := (getOriginalText t.text).1
    if seen.contains original then removeDupAux seen rest
    else t :: removeDupAux (original :: seen) rest

/-- Embeds `removeDuplicates` (twbot.go:684-700). -/
def removeDuplicates (current : List Tweet) : List Tweet := removeDupAux [] current

/-- Modelled from the spec: the DuplicateFilter variant the spec describes,
in which "the offending candidate's raw text is used as a fallback
fingerprint" when normalization fails. The repository's code has no such
fallback; this definition exists only to compare the spec's wording with
`removeDuplicates`. -/
def specFingerprint (t : Tweet) : List Char :=
  let r := getOriginalText t.text
  if r.2 then t.text else r.1

/-- Modelled from the spec: intra-batch dedup using `specFingerprint`. -/
def removeDupSpecAux (seen : List (List Char)) : List Tweet → List Tweet
  | [] => []
  | t :: rest =>
    let original := specFingerprint t
    if seen.contains original then removeDupSpecAux seen rest
    else t :: removeDupSpecAux (original :: seen) rest

/-- Modelled from the spec: spec-described counterpart of `removeDuplicates`. -/
def removeDuplicatesSpec (current : List Tweet) : List Tweet :=
  removeDupSpecAux [] current

/-- Embeds the loop of `takeDifference` (twbot.go:652-682); `byID` and
`byText` are the `addedByID`/`addedByText` sets. -/
def takeDiffAux (byID : List Int) (byText : List (List Char)) :
    List Tweet → List Tweet
  | [] => []
  | t :: rest =>
    if byID.contains t.id then takeDiffAux byID byText rest
    else
      let original := (getOriginalText t.text).1
      if byText.contains original then takeDiffAux byID byText rest
      else t :: takeDiffAux (t.id :: byID) (original :: byText) rest

/-- Embeds `takeDifference` (twbot.go:652-682): cross-batch dedup of
`current` against `previous` by identifier and by canonical fingerprint. -/
def takeDifference (previous current : List Tweet) : List Tweet :=
  takeDiffAux (previous.map Tweet.id)
    (previous.map (fun v => (getOriginalText v.text).1)) current

/-- Outcome of one remote `FollowUserId` call: success, the
"You are unable to follow more people at this time" rate-limit error
(twbot.go:786), or any other error. -/
inductive FollowResult where
  | success : FollowResult
  | rateLimited : FollowResult
  | otherErr : FollowResult
deriving DecidableEq

/-- Observable step of the follow-followers flow: a remote follow call, the
15-minute cooldown sleep inside `checkUnableToFollowAtThisTime`
(twbot.go:788), or an `addFriend` record. -/
inductive BotAction where
  | followCall (id : Int) : BotAction
  | sleepCooldown : BotAction
  | recordFriend (id : Int) : BotAction
deriving DecidableEq

/-- Embeds the loop of `followAll` (twbot.go:1028-1043) with the remote
outcomes injected; returns the trace of actions and the final friends map.
An id already a friend or a follower is skipped; on a non-rate-limit error
the id is skipped after the failed call; on the rate-limit error
`checkUnableToFollowAtThisTime` sleeps 15 minutes, returns `true`, and the
code falls through to `addFriend`; a successful follow also reaches
`addFriend` (saves are taken to succeed here). -/
def followAllAux (followers : UserMap) (remote : Int → FollowResult)
    (now : Int) : UserMap → List Int → List BotAction × UserMap
  | friends, [] => ([], friends)
  | friends, id :: rest =>
    if (friends.lookup (toString id)).isSome || isFollower followers id then
      followAllAux followers remote now friends rest
    else
      match remote id with
      | .otherErr =>
        let r := followAllAux followers remote now friends rest
        (.followCall id :: r.1, r.2)
      | .rateLimited =>
        let friends2 := setUser friends (toString id) ⟨now, true⟩
        let r := followAllAux followers remote now friends2 rest
        (.followCall id :: .sleepCooldown :: .recordFriend id :: r.1, r.2)
      | .success =>
        let friends2 := setUser friends (toString id) ⟨now, true⟩
        let r := followAllAux followers remote now friends2 rest
        (.followCall id :: .recordFriend id :: r.1, r.2)

/-- Embeds `followAll` (twbot.go:1028-1043). -/
def followAll (friends followers : UserMap) (remote : Int → FollowResult)
    (now : Int) (ids : List Int) : List BotAction × UserMap :=
  followAllAux followers remote now friends ids

/-- The 141-character test fixture `string141` of TestTruncate. -/
def string141 : List Char := ("Wrote water woman of heart it total other. By in entirely securing suitable graceful at families improved. Zealously few furniture repulsive.").toList

/-- The 140-character test fixture `string140` of TestTruncate. -/
def string140 : List Char := ("Wrote water woman of heart it total other. By in entirely securing suitable graceful at families improved. Zealously few furniture repulsive").toList

/-- The 42-character test fixture `string42` of TestTruncate. -/
def string42 : List Char := ("Wrote water woman of heart it total other.").toList

/-- The 140-character link fixture `url140` of TestTruncate: "https://"
followed by 132 dashes. -/
def url140 : List Char := ("https://").toList ++ List.replicate 132 (Char.ofNat 45)

theorem startsWith_decomp (sep : List Char) : ∀ t : List Char,
    startsWith sep t = true → t = sep ++ t.drop sep.length := by
  induction sep with
  | nil => intro t _; simp
  | cons p ps ih =>
    intro t h
    cases t with
    | nil => simp [startsWith] at h
    | cons c cs =>
      simp only [startsWith, Bool.and_eq_true, beq_iff_eq] at h
      obtain ⟨h1, h2⟩ := h
      subst h1
      simpa using ih cs h2

theorem splitFirst_decomp (sep : List Char) : ∀ t pre post : List Char,
    splitFirst sep t = some (pre, post) → t = pre ++ sep ++ post := by
  intro t
  induction t with
  | nil => intro pre post h; simp [splitFirst] at h
  | cons c cs ih =>
    intro pre post h
    rw [splitFirst] at h
    split at h
    · next hsw =>
      simp only [Option.some.injEq, Prod.mk.injEq] at h
      obtain ⟨h1, h2⟩ := h
      subst h1; subst h2
      simpa using startsWith_decomp sep (c :: cs) hsw
    · next hsw =>
      cases hm : splitFirst sep cs with
      | none => rw [hm] at h; simp at h
      | some pr =>
        obtain ⟨pre2, post2⟩ := pr
        rw [hm] at h
        simp only [Option.some.injEq, Prod.mk.injEq] at h
        obtain ⟨h1, h2⟩ := h
        subst h1; subst h2
        simpa using ih pre2 post2 hm

theorem splitFirst_length {sep t pre post : List Char}
    (h : splitFirst sep t = some (pre, post)) :
    pre.length + sep.length + post.length = t.length := by
  have hd := splitFirst_decomp sep t pre post h
  rw [hd]
  simp [List.length_append]
  omega

theorem stripText_eq_none {t ts : List Char} (es : List Char)
    (h : splitFirst ts t = none) : stripText t ts es = (t, false) := by
  simp only [stripText, h]

theorem stripText_eq_some_none {t ts es pre post : List Char}
    (h : splitFirst ts t = some (pre, post)) (h2 : splitFirst es post = none) :
    stripText t ts es = (pre, true) := by
  simp only [stripText, h, h2]

theorem stripText_eq_some_some {t ts es pre post mid after : List Char}
    (h : splitFirst ts t = some (pre, post))
    (h2 : splitFirst es post = some (mid, after)) :
    stripText t ts es = (pre ++ after, true) := by
  simp only [stripText, h, h2]

theorem stripText_snd (t ts es : List Char) :
    (stripText t ts es).2 = strContains ts t := by
  unfold strContains
  rcases h1 : splitFirst ts t with _ | ⟨pre, post⟩
  · rw [stripText_eq_none es h1]; simp
  · rcases h2 : splitFirst es post with _ | ⟨mid, after⟩
    · rw [stripText_eq_some_none h1 h2]; simp
    · rw [stripText_eq_some_some h1 h2]; simp

theorem stripText_of_not_contains {t ts : List Char} (es : List Char)
    (h : strContains ts t = false) : stripText t ts es = (t, false) := by
  unfold strContains at h
  rcases hs : splitFirst ts t with _ | ⟨pre, post⟩
  · exact stripText_eq_none es hs
  · rw [hs] at h; simp at h

theorem stripText_true_length {t ts es : List Char}
    (h : (stripText t ts es).2 = true) :
    (stripText t ts es).1.length + ts.length ≤ t.length := by
  rcases h1 : splitFirst ts t with _ | ⟨pre, post⟩
  · rw [stripText_eq_none es h1] at h; simp at h
  · have hlen := splitFirst_length h1
    rcases h2 : splitFirst es post with _ | ⟨mid, after⟩
    · rw [stripText_eq_some_none h1 h2]; simp; omega
    · have hlen2 := splitFirst_length h2
      rw [stripText_eq_some_some h1 h2]
      simp [List.length_append] at *
      omega

theorem stripText_fst_le (t ts es : List Char) :
    (stripText t ts es).1.length ≤ t.length := by
  cases h : (stripText t ts es).2 with
  | false =>
    have hc : strContains ts t = false := by rw [← stripText_snd t ts es, h]
    rw [stripText_of_not_contains es hc]
  | true => have := stripText_true_length h; omega

theorem strip_pass_shrink {t : List Char}
    (h : ((stripText t tweetTCOHTTPTag tweetTCOTextIndex).2 ||
      (stripText (stripText t tweetTCOHTTPTag tweetTCOTextIndex).1
        tweetTCOHTTPSTag tweetTCOTextIndex).2) = true) :
    (stripText (stripText t tweetTCOHTTPTag tweetTCOTextIndex).1
      tweetTCOHTTPSTag tweetTCOTextIndex).1.length < t.length := by
  have htag1 : 0 < tweetTCOHTTPTag.length := by decide
  have htag2 : 0 < tweetTCOHTTPSTag.length := by decide
  cases h1 : (stripText t tweetTCOHTTPTag tweetTCOTextIndex).2 with
  | true =>
    have l1 := stripText_true_length h1
    have l2 := stripText_fst_le (stripText t tweetTCOHTTPTag tweetTCOTextIndex).1
      tweetTCOHTTPSTag tweetTCOTextIndex
    omega
  | false =>
    have hc : strContains tweetTCOHTTPTag t = false := by
      rw [← stripText_snd t tweetTCOHTTPTag tweetTCOTextIndex, h1]
    rw [stripText_of_not_contains tweetTCOTextIndex hc] at h ⊢
    dsimp only at h ⊢
    simp only [Bool.false_or] at h
    have := stripText_true_length h
    omega

theorem stripLinksFuel_no_tags : ∀ fuel : Nat, ∀ t : List Char, t.length ≤ fuel →
    strContains tweetTCOHTTPTag (stripLinksFuel fuel t) = false ∧
    strContains tweetTCOHTTPSTag (stripLinksFuel fuel t) = false := by
  intro fuel
  induction fuel with
  | zero =>
    intro t ht
    have : t = [] := List.eq_nil_of_length_eq_zero (Nat.le_zero.mp ht)
    subst this
    exact ⟨by decide, by decide⟩
  | succ n ih =>
    intro t ht
    simp only [stripLinksFuel]
    by_cases hc : ((stripText t tweetTCOHTTPTag tweetTCOTextIndex).2 ||
        (stripText (stripText t tweetTCOHTTPTag tweetTCOTextIndex).1
          tweetTCOHTTPSTag tweetTCOTextIndex).2) = true
    · rw [if_pos hc]
      have := strip_pass_shrink hc
      exact ih _ (by omega)
    · rw [if_neg hc]
      simp only [Bool.or_eq_true, not_or, Bool.not_eq_true] at hc
      obtain ⟨hc1, hc2⟩ := hc
      have hn1 : strContains tweetTCOHTTPTag t = false := by
        rw [← stripText_snd t tweetTCOHTTPTag tweetTCOTextIndex, hc1]
      rw [stripText_of_not_contains tweetTCOTextIndex hn1] at hc2 ⊢
      have hn2 : strContains tweetTCOHTTPSTag t = false := by
        rw [← stripText_snd t tweetTCOHTTPSTag tweetTCOTextIndex, hc2]
      rw [stripText_of_not_contains tweetTCOTextIndex hn2]
      exact ⟨hn1, hn2⟩

theorem stripLinksFuel_fixed (fuel : Nat) {t : List Char}
    (h1 : strContains tweetTCOHTTPTag t = false)
    (h2 : strContains tweetTCOHTTPSTag t = false) :
    stripLinksFuel fuel t = t := by
  cases fuel with
  | zero => rfl
  | succ n =>
    simp only [stripLinksFuel]
    rw [stripText_of_not_contains tweetTCOTextIndex h1]
    dsimp only
    rw [stripText_of_not_contains tweetTCOTextIndex h2]
    simp

theorem stripLinks_no_tags (t : List Char) :
    strContains tweetTCOHTTPTag (stripLinks t) = false ∧
    strContains tweetTCOHTTPSTag (stripLinks t) = false :=
  stripLinksFuel_no_tags t.length t le_rfl

theorem stripLinks_fixed {t : List Char}
    (h1 : strContains tweetTCOHTTPTag t = false)
    (h2 : strContains tweetTCOHTTPSTag t = false) :
    stripLinks t = t :=
  stripLinksFuel_fixed t.length h1 h2

theorem getOriginalText_ok_no_tags {t r : List Char}
    (h : getOriginalText t = (r, false)) :
    strContains tweetTCOHTTPTag r = false ∧
    strContains tweetTCOHTTPSTag r = false := by
  unfold getOriginalText at h
  by_cases hc : strContains retweetTextTag t = true
  · rw [if_pos hc] at h
    cases hm : splitFirst retweetTextIndex t with
    | none => rw [hm] at h; simp at h
    | some pr =>
      obtain ⟨a, rest⟩ := pr
      rw [hm] at h
      simp only [Prod.mk.injEq] at h
      rw [← h.1]
      exact stripLinks_no_tags rest
  · rw [if_neg hc] at h
    simp only [Prod.mk.injEq] at h
    rw [← h.1]
    exact stripLinks_no_tags t

theorem getOriginalText_error_eq {t : List Char}
    (h : (getOriginalText t).2 = true) : getOriginalText t = ([], true) := by
  unfold getOriginalText at *
  by_cases hc : strContains retweetTextTag t = true
  · rw [if_pos hc] at h ⊢
    cases hm : splitFirst retweetTextIndex t with
    | none => rfl
    | some pr => obtain ⟨a, rest⟩ := pr; rw [hm] at h; simp at h
  · rw [if_neg hc] at h; simp at h

theorem lookup_cons_true {id k : String} {v : twitterUser} {tl : UserMap}
    (h : (id == k) = true) : ((k, v) :: tl).lookup id = some v := by
  simp [List.lookup, h]

theorem lookup_cons_false {id k : String} {v : twitterUser} {tl : UserMap}
    (h : (id == k) = false) : ((k, v) :: tl).lookup id = tl.lookup id := by
  simp [List.lookup, h]

theorem lookup_markAllInactive {m : UserMap} {id : String} {ts : Int} {b : Bool}
    (h : m.lookup id = some ⟨ts, b⟩) :
    (markAllInactive m).lookup id = some ⟨ts, false⟩ := by
  induction m with
  | nil => simp [List.lookup] at h
  | cons hd tl ih =>
    obtain ⟨k, v⟩ := hd
    have hmap : markAllInactive ((k, v) :: tl)
        = (k, { v with follow := false }) :: markAllInactive tl := rfl
    rw [hmap]
    cases hbeq : id == k with
    | true =>
      rw [lookup_cons_true hbeq] at h
      simp only [Option.some.injEq] at h
      rw [lookup_cons_true hbeq, h]
    | false =>
      rw [lookup_cons_false hbeq] at h
      rw [lookup_cons_false hbeq]
      exact ih h

theorem lookup_setFollowTrue_stamp {m : UserMap} {id : String} {ts : Int}
    {b : Bool} (h : m.lookup id = some ⟨ts, b⟩) (k : String) :
    ∃ b2, (setFollowTrue m k).lookup id = some ⟨ts, b2⟩ := by
  induction m with
  | nil => simp [List.lookup] at h
  | cons hd tl ih =>
    obtain ⟨k2, v⟩ := hd
    have hmap : setFollowTrue ((k2, v) :: tl) k
        = (if k2 = k then (k2, { v with follow := true }) else (k2, v))
          :: setFollowTrue tl k := rfl
    rw [hmap]
    by_cases hk : k2 = k
    · rw [if_pos hk]
      cases hbeq : id == k2 with
      | true =>
        rw [lookup_cons_true hbeq] at h
        simp only [Option.some.injEq] at h
        rw [lookup_cons_true hbeq]
        exact ⟨true, by rw [h]⟩
      | false =>
        rw [lookup_cons_false hbeq] at h
        rw [lookup_cons_false hbeq]
        exact ih h
    · rw [if_neg hk]
      cases hbeq : id == k2 with
      | true =>
        rw [lookup_cons_true hbeq] at h
        rw [lookup_cons_true hbeq]
        exact ⟨b, h⟩
      | false =>
        rw [lookup_cons_false hbeq] at h
        rw [lookup_cons_false hbeq]
        exact ih h

theorem lookup_append_left {m : UserMap} {id : String} {u : twitterUser}
    (h : m.lookup id = some u) (l : UserMap) : (m ++ l).lookup id = some u := by
  induction m with
  | nil => simp [List.lookup] at h
  | cons hd tl ih =>
    obtain ⟨k, v⟩ := hd
    rw [List.cons_append]
    cases hbeq : id == k with
    | true =>
      rw [lookup_cons_true hbeq] at h
      rw [lookup_cons_true hbeq]
      exact h
    | false =>
      rw [lookup_cons_false hbeq] at h
      rw [lookup_cons_false hbeq]
      exact ih h

theorem applyRemoteId_stamp {m : UserMap} {id : String} {ts : Int} {b : Bool}
    (h : m.lookup id = some ⟨ts, b⟩) (now : Int) (rid : Int) :
    ∃ b2, (applyRemoteId now m rid).lookup id = some ⟨ts, b2⟩ := by
  unfold applyRemoteId
  by_cases hp : (m.lookup (toString rid)).isSome = true
  · rw [if_pos hp]
    exact lookup_setFollowTrue_stamp h (toString rid)
  · rw [if_neg hp]
    exact ⟨b, lookup_append_left h _⟩

theorem foldl_applyRemoteId_stamp (ids : List Int) :
    ∀ (m : UserMap) (id : String) (ts : Int) (b : Bool),
    m.lookup id = some ⟨ts, b⟩ → ∀ now : Int,
    ∃ b2, (ids.foldl (fun acc i => applyRemoteId now acc i) m).lookup id
      = some ⟨ts, b2⟩ := by
  induction ids with
  | nil => intro m id ts b h now; exact ⟨b, h⟩
  | cons rid rest ih =>
    intro m id ts b h now
    obtain ⟨b1, h1⟩ := applyRemoteId_stamp h now rid
    simpa using ih (applyRemoteId now m rid) id ts b1 h1 now

theorem reconcile_stamp {m : UserMap} {id : String} {ts : Int} {b : Bool}
    (h : m.lookup id = some ⟨ts, b⟩) (now : Int) (ids : List Int) :
    ∃ b2, (reconcile m now ids).lookup id = some ⟨ts, b2⟩ := by
  unfold reconcile
  exact foldl_applyRemoteId_stamp ids (markAllInactive m) id ts false
    (lookup_markAllInactive h) now

/-- C1, counterexample: the claim "no pair of inputs (including a link whose
literal length exceeds the reserved width budgeted for it) produces an output
longer than 140" is false: a one-character message with a 140-character link
and a reserved width of 8 yields a 142-character output, because `truncate`
appends the literal link after budgeting only `urlMaxLength` characters. -/
theorem truncate_over_budget_cex :
    ¬ ((truncate (("a").toList) url140 8).length ≤ 140) := by decide

/-- C1, amended: whenever the reserved width is honest — it is 0 (link
ignored) or at least the literal link length — every output of `truncate`
is at most 140 characters, in every branch including the final fallback. -/
theorem truncate_budget (msg archiveURL : List Char) (w : Nat)
    (h : w = 0 ∨ archiveURL.length ≤ w) :
    (truncate msg archiveURL w).length ≤ tweetTextMaxSize := by
  have hsep : (("... ").toList : List Char).length = 4 := by decide
  have hemp : ((" ").toList : List Char).length = 1 := by decide
  have hsep3 : ((("... ").toList : List Char).take
      ((("... ").toList : List Char).length - 1)).length = 3 := by decide
  simp only [truncate]
  split_ifs with h0 h1 h2 h3 h4 h5
  · simp only [List.length_append, hsep3, List.length_take, hsep,
      tweetTextMaxSize]
    omega
  · simp only [tweetTextMaxSize] at h1 ⊢
    omega
  · rcases h with h7 | h7
    · exact absurd h7 h0
    · simp only [List.length_append, hemp, tweetTextMaxSize] at h2 ⊢
      omega
  · rcases h with h7 | h7
    · exact absurd h7 h0
    · simp only [List.length_append, List.length_take, hsep, tweetTextMaxSize,
        tweetTruncatedTextMin] at h2 h3 ⊢
      omega
  · rcases h with h7 | h7
    · exact absurd h7 h0
    · simp only [tweetTextMaxSize] at h4 ⊢
      omega
  · simp only [tweetTextMaxSize] at h5 ⊢
    omega
  · simp only [List.length_take, tweetTextMaxSize]
    omega

/-- C1, witness for `truncate_budget` at a concrete input. -/
theorem truncate_budget_witness :
    (url140.length ≤ 140 ∨ url140.length ≤ 140) ∧
      (truncate string42 url140 140).length ≤ tweetTextMaxSize :=
  ⟨Or.inl (by decide), truncate_budget string42 url140 140 (Or.inr (by decide))⟩

/-- C2, counterexample: truncating the 141-character test message with an
empty link and reserved width 0 yields 139 characters (136 kept plus the
3-character ellipsis), not the 140 the claim states. -/
theorem truncate_string141_cex :
    ¬ ((truncate string141 [] 0).length = 140) := by decide

/-- C2, amended: the spec's truncation examples hold as in TestTruncate,
except that the 141-character message truncates to a 139-character
ellipsis-terminated string: `truncate "test" "" 0 = "test"`;
`truncate "test" "test_url" 8 = "test test_url"`; the 42-character message
with the 140-character link (reserved at its literal length) returns the
link unchanged; the 141-character message with empty link becomes its first
136 characters plus "..." (length 139); the 140-character message with
empty link is returned unchanged. -/
theorem truncate_examples :
    truncate (("test").toList) [] 0 = ("test").toList ∧
    truncate (("test").toList) (("test_url").toList) 8
      = ("test test_url").toList ∧
    string42.length = 42 ∧ url140.length = 140 ∧
    truncate string42 url140 140 = url140 ∧
    string141.length = 141 ∧
    truncate string141 [] 0 = string141.take 136 ++ ("...").toList ∧
    (truncate string141 [] 0).length = 139 ∧
    string140.length = 140 ∧
    truncate string140 [] 0 = string140 := by decide

/-- C3, counterexample: normalization is not idempotent. The input
"RT @a: RT @b: c" normalizes successfully to "RT @b: c" (the split is on the
first ": " of the whole text), and normalizing that output again succeeds
but yields "c", a different result. -/
theorem getOriginalText_not_idempotent_cex :
    getOriginalText (("RT @a: RT @b: c").toList)
        = ((("RT @b: c").toList), false) ∧
      getOriginalText (("RT @b: c").toList) = ((("c").toList), false) ∧
      (("c").toList : List Char) ≠ ("RT @b: c").toList := by decide

/-- C3, amended: for every input on which normalization succeeds and whose
result no longer contains the attribution marker "RT @", normalization of
the result succeeds and returns it unchanged (the link-stripping loop has
already reached its fixed point, so only the marker can make a second pass
differ). -/
theorem getOriginalText_idem (x r : List Char)
    (h : getOriginalText x = (r, false))
    (hr : strContains retweetTextTag r = false) :
    getOriginalText r = (r, false) := by
  have hnl := getOriginalText_ok_no_tags h
  unfold getOriginalText
  rw [if_neg (by rw [hr]; exact Bool.false_ne_true)]
  rw [stripLinks_fixed hnl.1 hnl.2]

/-- C3, witness for `getOriginalText_idem` at a concrete input. -/
theorem getOriginalText_idem_witness :
    getOriginalText (("RT @a: hello").toList) = ((("hello").toList), false) ∧
      strContains retweetTextTag (("hello").toList) = false ∧
      getOriginalText (("hello").toList) = ((("hello").toList), false) :=
  ⟨by decide, by decide,
    getOriginalText_idem (("RT @a: hello").toList) (("hello").toList)
      (by decide) (by decide)⟩

/-- C4: an input containing the attribution marker "RT @" but no ": "
separator makes `getOriginalText` return the error pair (empty canonical
result, error set); while the marker immediately followed by the separator
with nothing after ("RT @: ") succeeds with the empty string and no error. -/
theorem getOriginalText_malformed :
    (∀ text : List Char, strContains retweetTextTag text = true →
      strContains retweetTextIndex text = false →
      getOriginalText text = ([], true)) ∧
    getOriginalText (("RT @: ").toList) = ([], false) := by
  constructor
  · intro text h1 h2
    unfold getOriginalText
    rw [if_pos h1]
    cases hm : splitFirst retweetTextIndex text with
    | none => rfl
    | some pr =>
      unfold strContains at h2
      rw [hm] at h2
      simp at h2
  · decide

/-- C4, witness for `getOriginalText_malformed` at a concrete input. -/
theorem getOriginalText_malformed_witness :
    strContains retweetTextTag (("RT @x").toList) = true ∧
      strContains retweetTextIndex (("RT @x").toList) = false ∧
      getOriginalText (("RT @x").toList) = ([], true) :=
  ⟨by decide, by decide,
    getOriginalText_malformed.1 (("RT @x").toList) (by decide) (by decide)⟩

/-- C5: firstSeen timestamps are never changed by reconciliation. For every
identifier already present in the snapshot, after any number of reconcile
calls (each with its own clock value and remote identifier stream) the
record still carries the original timestamp; only the follow flag may have
changed. -/
theorem reconcile_monotone (calls : List (Int × List Int)) (m : UserMap)
    (id : String) (u : twitterUser) (h : m.lookup id = some u) :
    ∃ b2, (calls.foldl (fun s c => reconcile s c.1 c.2) m).lookup id
      = some ⟨u.timestamp, b2⟩ := by
  induction calls generalizing m u with
  | nil =>
    simp only [List.foldl_nil]
    obtain ⟨ts, b⟩ := u
    exact ⟨b, h⟩
  | cons c rest ih =>
    obtain ⟨ts, b⟩ := u
    obtain ⟨b1, h1⟩ := reconcile_stamp h c.1 c.2
    simp only [List.foldl_cons]
    exact ih (reconcile m c.1 c.2) ⟨ts, b1⟩ h1

/-- C5, witness for `reconcile_monotone` at a concrete input. -/
theorem reconcile_monotone_witness :
    ([(("7" : String), (⟨3, true⟩ : twitterUser))] : UserMap).lookup
        ("7" : String) = some ⟨3, true⟩ ∧
      ∃ b2, (([((5 : Int), [(8 : Int)])]).foldl
          (fun s c => reconcile s c.1 c.2)
          [(("7" : String), (⟨3, true⟩ : twitterUser))]).lookup ("7" : String)
        = some ⟨3, b2⟩ :=
  ⟨by decide,
    reconcile_monotone [((5 : Int), [(8 : Int)])]
      [(("7" : String), (⟨3, true⟩ : twitterUser))] ("7" : String)
      ⟨3, true⟩ (by decide)⟩

/-- C6: the reconcile-and-persist step is atomic with respect to save
failure: when the save fails, the error is returned to the caller and the
previous in-memory snapshot is kept unchanged; only a successful save
replaces it with the reconciled snapshot. -/
theorem updateUsers_atomic :
    ∀ (inMem diskSnap : UserMap) (now : Int) (ids : List Int),
      updateUsersRun inMem diskSnap now ids false = (inMem, true) ∧
      updateUsersRun inMem diskSnap now ids true
        = (reconcile diskSnap now ids, false) :=
  fun _ _ _ _ => ⟨rfl, rfl⟩

/-- C7, counterexample: the fallback fingerprint for a candidate whose
normalization errors is the empty string, not the raw text. Two malformed
candidates with different raw texts collide under the empty fingerprint, so
the code keeps only the first one, while the spec-described raw-text
fallback would keep both. -/
theorem removeDuplicates_raw_fallback_cex :
    removeDuplicates [⟨1, ("RT @a").toList, []⟩, ⟨2, ("RT @b").toList, []⟩]
        = [⟨1, ("RT @a").toList, []⟩] ∧
      removeDuplicatesSpec
          [⟨1, ("RT @a").toList, []⟩, ⟨2, ("RT @b").toList, []⟩]
        = [⟨1, ("RT @a").toList, []⟩, ⟨2, ("RT @b").toList, []⟩] ∧
      (getOriginalText (("RT @a").toList)).2 = true ∧
      (getOriginalText (("RT @b").toList)).2 = true := by decide

/-- C7, amended: a normalization error on a candidate does not abort the
batch, and the empty string (the error-case canonical result) is used as
the fallback fingerprint, so malformed candidates dedup against each other
under that shared empty key, and they still participate in
exact-identifier dedup against the previously-seen set. -/
theorem removeDuplicates_error_fallback :
    (∀ t1 t2 : Tweet, (getOriginalText t1.text).2 = true →
      (getOriginalText t2.text).2 = true →
      removeDuplicates [t1, t2] = [t1]) ∧
    (∀ p t : Tweet, (getOriginalText t.text).2 = true → t.id = p.id →
      takeDifference [p] [t] = []) := by
  constructor
  · intro t1 t2 h1 h2
    have e1 := getOriginalText_error_eq h1
    have e2 := getOriginalText_error_eq h2
    simp only [removeDuplicates, removeDupAux, e1, e2]
    simp
  · intro p t h1 hid
    simp only [takeDifference, takeDiffAux, List.map]
    simp [hid]

/-- C7, witness for `removeDuplicates_error_fallback` at concrete inputs. -/
theorem removeDuplicates_error_fallback_witness :
    (getOriginalText (("RT @c").toList)).2 = true ∧
      (getOriginalText (("RT @d").toList)).2 = true ∧
      removeDuplicates [⟨3, ("RT @c").toList, []⟩, ⟨4, ("RT @d").toList, []⟩]
        = [⟨3, ("RT @c").toList, []⟩] :=
  ⟨by decide, by decide,
    removeDuplicates_error_fallback.1 ⟨3, ("RT @c").toList, []⟩
      ⟨4, ("RT @d").toList, []⟩ (by decide) (by decide)⟩

/-- C8: evaluating the follow-followers loop at the failing input. With a
remote that answers every FollowUserId call with the rate-limit error
("You are unable to follow more people at this time"), the flow issues
exactly one follow call for id 42, sleeps the 15-minute cooldown, and then
records 42 as a friend without retrying the follow — the trace contains a
single followCall and ends with recordFriend, and the final friends map
holds id 42 with Follow = true even though no follow succeeded. -/
theorem followAll_rate_limit_no_retry :
    followAll [] [] (fun _ => FollowResult.rateLimited) 100 [42]
      = ([BotAction.followCall 42, BotAction.sleepCooldown,
          BotAction.recordFriend 42],
         [(("42" : String), (⟨100, true⟩ : twitterUser))]) := by decide

/-- C9, counterexample: a save failure during `addFriend`
(recordFriendAdded) does not propagate an error to the caller — the code
calls log.Fatalln, terminating the process. -/
theorem addFriend_fatal_cex :
    addFriend [] 7 100 false = MutationResult.fatalStop := rfl

/-- C9, amended: a save failure in the reconcile step
(updateFollowers/updateFriends) is propagated to the caller with the
in-memory snapshot untouched, but a save failure in `addFriend`
(recordFriendAdded) or `unfollowFriend` (recordFriendRemoved) terminates
the process via log.Fatalln instead of returning an error. -/
theorem save_failure_behavior :
    (∀ (inMem diskSnap : UserMap) (now : Int) (ids : List Int),
      updateUsersRun inMem diskSnap now ids false = (inMem, true)) ∧
    (∀ (m : UserMap) (id now : Int),
      addFriend m id now false = MutationResult.fatalStop) ∧
    (∀ (m : UserMap) (id : Int),
      unfollowFriend m id false = MutationResult.fatalStop) :=
  ⟨fun _ _ _ _ => rfl, fun _ _ _ => rfl, fun _ _ => rfl⟩

/-- C10: `isFollower` is a key-presence test only — it answers true for any
identifier with a record in the followers map, in particular for a record
whose follow flag was set to false by a reconcile pass; and the followAll
loop skips an identifier for which `isFollower` answers true, performing no
action on it. -/
theorem isFollower_key_presence :
    (∀ (m : UserMap) (id : Int) (u : twitterUser),
      m.lookup (toString id) = some u → isFollower m id = true) ∧
    (∀ (m : UserMap) (now : Int) (ids : List Int) (id : Int)
      (u : twitterUser), m.lookup (toString id) = some u →
      isFollower (reconcile m now ids) id = true) ∧
    (∀ (friends followers : UserMap) (remote : Int → FollowResult)
      (now : Int) (id : Int) (rest : List Int),
      isFollower followers id = true →
      followAllAux followers remote now friends (id :: rest)
        = followAllAux followers remote now friends rest) := by
  refine ⟨?_, ?_, ?_⟩
  · intro m id u h
    unfold isFollower
    rw [h]
    rfl
  · intro m now ids id u h
    obtain ⟨ts, b⟩ := u
    obtain ⟨b2, h2⟩ := reconcile_stamp h now ids
    unfold isFollower
    rw [h2]
    rfl
  · intro friends followers remote now id rest h
    simp [followAllAux, h]

/-- C10, witness for `isFollower_key_presence` at a concrete input: after a
reconcile pass with an empty remote stream flips the record of id 5 to
Follow = false, `isFollower` still answers true. -/
theorem isFollower_key_presence_witness :
    ([(("5" : String), (⟨1, true⟩ : twitterUser))] : UserMap).lookup
        (toString (5 : Int)) = some ⟨1, true⟩ ∧
      isFollower (reconcile [(("5" : String), (⟨1, true⟩ : twitterUser))]
        2 []) 5 = true :=
  ⟨by decide,
    isFollower_key_presence.2.1 [(("5" : String), (⟨1, true⟩ : twitterUser))]
      2 [] 5 ⟨1, true⟩ (by decide)⟩

end Twbot
